import Mathlib

/-!
Verification development for the catch-up orchestration pipeline of the
live-stream transcription repository.

Shallow embedding of:
* `src/serverless/api/catchup.py` — `parse_twitch_duration`, `compute_slice_parameters`
* `src/backend/parallel_transcriber.py` — `ParallelTranscriber.transcribe_clips_parallel`,
  `transcribe_single_clip`
* `src/backend/main.py` — `process_catchup_async`, `update_task_status`,
  `merge_transcripts`, `generate_ai_summary`, `_is_valid_stream_url`
* `src/aws_backend/src/transcription.py` — `init_chunked_upload`, `upload_chunk`,
  `finalize_chunked_upload`

External collaborators (AssemblyAI, OpenAI, Twitch API, filesystem) are modelled
as explicit environment parameters; machine strings and bytes are Lean `String`
and `List Nat`.
-/

deriving instance DecidableEq for Except

namespace Catchup

/-! ### Generic list/string helpers -/

/-- Python's `str.strip()`: drop leading and trailing whitespace.  (Executable
replacement for `String.trim`, whose byte-position recursion the kernel cannot
evaluate.) -/
def pyStrip (s : String) : String :=
  ⟨((s.data.dropWhile Char.isWhitespace).reverse.dropWhile Char.isWhitespace).reverse⟩

/-- Executable test that `sub` is a prefix of `l` (list of characters). -/
def listPrefixOf : List Char → List Char → Bool
  | [], _ => true
  | _ :: _, [] => false
  | a :: as, b :: bs => a = b && listPrefixOf as bs

/-- Executable test that `sub` occurs contiguously anywhere in `l`.
Models Python's `sub in s` substring operator. -/
def listInfixOf (sub : List Char) : List Char → Bool
  | [] => listPrefixOf sub []
  | b :: bs => listPrefixOf sub (b :: bs) || listInfixOf sub bs

/-- Python's `sub in s` for strings. -/
def substrIn (sub s : String) : Bool := listInfixOf sub.data s.data

/-- Map with an explicit running index, starting at `i`.  Models
`enumerate(batch)`-style indexed iteration in the Python sources. -/
def mapIdxFrom (f : Nat → α → β) : Nat → List α → List β
  | _, [] => []
  | i, a :: as => f i a :: mapIdxFrom f (i + 1) as

/-- Association-list lookup (first match), modelling Python `dict` access. -/
def lookupA : List (Int × α) → Int → Option α
  | [], _ => none
  | (k', v') :: t, k => if k' = k then some v' else lookupA t k

/-- Association-list update, modelling Python `d[k] = v`: replaces the value of
an existing key in place, otherwise appends (dicts preserve insertion order). -/
def assocSet : List (Int × α) → Int → α → List (Int × α)
  | [], k, v => [(k, v)]
  | (k', v') :: t, k, v => if k' = k then (k, v) :: t else (k', v') :: assocSet t k v

/-! ### Duration parsing — `parse_twitch_duration` (src/serverless/api/catchup.py:203) -/

/-- Left-to-right scanner for the leftmost occurrence of a digit run immediately
followed by the unit character `u`, returning the run's decimal value.  This is
the behaviour of Python's `re.search(r'(\d+)u', s)` used by
`parse_twitch_duration`: `run` carries the value of the digit run ending just
before the current position (if any). -/
def searchTokenAux (u : Char) : Option Nat → List Char → Option Nat
  | _, [] => none
  | run, c :: cs =>
    if c.isDigit then searchTokenAux u (some ((run.getD 0) * 10 + (c.toNat - 48))) cs
    else if c = u then
      match run with
      | some v => some v
      | none => searchTokenAux u none cs
    else searchTokenAux u none cs

/-- `re.search(r'(\d+)' ++ u, s)`'s captured value, if any. -/
def searchToken (u : Char) (l : List Char) : Option Nat := searchTokenAux u none l

/-- `parse_twitch_duration` (src/serverless/api/catchup.py lines 203–225):
sums the first `(\d+)h`, `(\d+)m`, `(\d+)s` matches; an absent token
contributes 0; the empty string yields 0. -/
def parse_twitch_duration (s : String) : Nat :=
  ((searchToken 'h' s.data).getD 0) * 3600 +
  ((searchToken 'm' s.data).getD 0) * 60 +
  ((searchToken 's' s.data).getD 0)

/-- Decimal value of a digit string (the `int(match.group(1))` conversions in
`parse_twitch_duration`). -/
def digitsToNat (ds : List Char) : Nat := ds.foldl (fun a c => a * 10 + (c.toNat - 48)) 0

/-- Rendering of a sequence of duration tokens, each a digit string followed by
its unit letter (e.g. `[("1", 'h'), ("30", 'm')] ↦ "1h30m"`). -/
def renderToks (toks : List (List Char × Char)) : List Char :=
  (toks.map (fun t => t.1 ++ [t.2])).flatten

/-! ### Slice computation — `compute_slice_parameters` (src/serverless/api/catchup.py:227) -/

/-- Python's `f"{n:02d}"` for a nonnegative integer. -/
def pad2 (n : Nat) : String := if n < 10 then "0" ++ toString n else toString n

/-- The `HH:MM:SS` rendering
`f"{s // 3600:02d}:{(s % 3600) // 60:02d}:{s % 60:02d}"` from
`compute_slice_parameters`. -/
def formatHMS (s : Nat) : String :=
  pad2 (s / 3600) ++ ":" ++ pad2 (s % 3600 / 60) ++ ":" ++ pad2 (s % 60)

/-- Result of `compute_slice_parameters`: either the whole VOD (the returned
dict has `slice_option = None`, `from_end = False`), or a tail window (dict
with `slice_option = True`, `from_end = True`, `start_time`, `start_seconds`). -/
inductive SlicePlan
  | whole (actual_duration : Nat)
  | tailWindow (actual_duration : Nat) (start_time : String) (start_seconds : Nat)
  deriving DecidableEq, Repr

/-- `compute_slice_parameters` (src/serverless/api/catchup.py lines 227–260). -/
def compute_slice_parameters (duration_str : String) (window_minutes : Nat) :
    Except String SlicePlan :=
  let available_seconds := parse_twitch_duration duration_str
  let want_seconds := window_minutes * 60
  if available_seconds = 0 then .error "Cannot determine VOD duration"
  else if available_seconds ≤ want_seconds then .ok (.whole available_seconds)
  else
    let slice_start_seconds := available_seconds - want_seconds
    .ok (.tailWindow want_seconds (formatHMS slice_start_seconds) slice_start_seconds)

/-! ### Parallel transcription engine — src/backend/parallel_transcriber.py -/

/-- A clip descriptor as produced by `StreamProcessor` and consumed by
`ParallelTranscriber` (`clip.get('id')`, `clip.get('audio_file')`, …). -/
structure Clip where
  id : Option String
  audio_file : Option String
  platform : String
  duration : Nat
  deriving DecidableEq, Repr

/-- Outcome of the per-clip three-step AssemblyAI protocol
(upload → submit job → poll), or of the demo-mode mock: either a completed
transcription (text, confidence) or a raised exception message.  This is the
external-collaborator environment of `transcribe_single_clip`. -/
inductive TranscribeOutcome
  | success (text : String) (confidence : Rat)
  | failure (err : String)
  deriving DecidableEq, Repr

/-- Per-index transcription environment for one run. -/
structure TranscribeEnv where
  outcome : Nat → TranscribeOutcome

/-- The dictionary `transcribe_single_clip` returns
(src/backend/parallel_transcriber.py lines 72–126). -/
structure TranscriptDict where
  clip_id : String
  index : Nat
  text : String
  confidence : Rat
  error : Option String
  deriving DecidableEq, Repr

/-- `transcribe_single_clip(clip, index)` (lines 72–126): on success returns a
dict with the transcribed text and no `error` key; on any exception returns
`{'text': '', 'confidence': 0.0, 'error': str(e)}`.  It never re-raises. -/
def transcribe_single_clip (clip : Clip) (index : Nat) (env : TranscribeEnv) :
    TranscriptDict :=
  let clip_id := clip.id.getD ("clip_" ++ toString index)
  match env.outcome index with
  | .success t c =>
    { clip_id := clip_id, index := index, text := t, confidence := c, error := none }
  | .failure e =>
    { clip_id := clip_id, index := index, text := "", confidence := 0, error := some e }

/-- Fuel-indexed loop body of `transcribe_clips_parallel`
(lines 41–67): take a batch of `mw` clips, run all of them
(`asyncio.gather` preserves submission order, so the batch's results come back
in index order), filter out exceptions (none occur, since
`transcribe_single_clip` catches everything), extend `results`, continue with
the rest.  `fuel ≥ clips.length` suffices for any `mw ≥ 1`. -/
def transcribeGo (mw : Nat) (env : TranscribeEnv) :
    Nat → Nat → List Clip → List TranscriptDict
  | 0, _, _ => []
  | _ + 1, _, [] => []
  | fuel + 1, i, c :: cs =>
    let batch := (c :: cs).take mw
    let batch_results := mapIdxFrom (fun k clip => transcribe_single_clip clip k env) i batch
    batch_results ++ transcribeGo mw env fuel (i + mw) ((c :: cs).drop mw)

/-- `transcribe_clips_parallel(clips)` with batch size `mw`
(`self.max_workers`, default 5). -/
def transcribe_clips_parallel (mw : Nat) (env : TranscribeEnv) (clips : List Clip) :
    List TranscriptDict :=
  transcribeGo mw env clips.length 0 clips

/-- Concrete two-clip input used to witness C7. -/
def witnessClipsC7 : List Clip :=
  [⟨some "c0", none, "twitch", 60⟩, ⟨some "c1", none, "twitch", 60⟩]

/-- Concrete outcome environment used to witness C7: clip 1 fails, clip 0
succeeds. -/
def witnessEnvC7 : TranscribeEnv :=
  ⟨fun k => if k = 1 then .failure "Upload failed: 500" else .success "hello" 1⟩

/-! ### Chunked upload reassembler — src/aws_backend/src/transcription.py -/

/-- The upload-session record written by `init_chunked_upload`
(lines 724–774).  `chunks_data` maps `str(chunk_index)` to the stored chunk
bytes (the `/tmp/chunk_{upload_id}_{chunk_index}.dat` file, which a re-send of
the same index overwrites). -/
structure UploadSession where
  user_id : String
  total_size : Nat
  total_chunks : Nat
  format : String
  sample_rate : Nat
  chunks_received : Nat
  chunks_data : List (Int × List Nat)
  deriving DecidableEq, Repr

/-- Fresh session as created by `init_chunked_upload`. -/
def mkUploadSession (owner : String) (total_size total_chunks : Nat) : UploadSession :=
  { user_id := owner, total_size := total_size, total_chunks := total_chunks,
    format := "pcm16", sample_rate := 16000, chunks_received := 0, chunks_data := [] }

/-- The collection of session files `/tmp/upload_{upload_id}.json`, keyed by
upload id. -/
def UploadStore := List (String × UploadSession)

instance : DecidableEq UploadStore := by unfold UploadStore; infer_instance

/-- Session-file lookup (`os.path.exists` + `json.load`). -/
def lookupStore : UploadStore → String → Option UploadSession
  | [], _ => none
  | (k', v') :: t, k => if k' = k then some v' else lookupStore t k

/-- Session-file write (`json.dump`, overwriting). -/
def storeSet : UploadStore → String → UploadSession → UploadStore
  | [], k, v => [(k, v)]
  | (k', v') :: t, k, v => if k' = k then (k, v) :: t else (k', v') :: storeSet t k v

/-- Session-file delete (`os.remove`). -/
def storeErase (st : UploadStore) (k : String) : UploadStore :=
  st.filter (fun p => p.1 ≠ k)

inductive ChunkResp
  | ok (chunk_index : Int) (chunks_received : Nat) (total_chunks : Nat)
  | err (code : Nat) (msg : String)
  deriving DecidableEq, Repr

/-- The session mutation of an accepted chunk upload (lines 810–821): store the
chunk bytes keyed by index (overwriting a previous send of the same index) and
increment `chunks_received` — unconditionally, whether or not the index was
already present. -/
def applyChunk (s : UploadSession) (p : Int × List Nat) : UploadSession :=
  { s with chunks_received := s.chunks_received + 1,
           chunks_data := assocSet s.chunks_data p.1 p.2 }

/-- `upload_chunk` (src/aws_backend/src/transcription.py lines 776–838).
The caller is already authenticated; `caller` is `user_data['user_id']`.
Checks, in order: required-field guard, session existence, session ownership.
There is no validation of `chunk_index` against `[0, total_chunks)`.
On acceptance it writes the chunk bytes keyed by index (overwriting any
previous bytes for that index) and unconditionally increments
`chunks_received`. -/
def upload_chunk (st : UploadStore) (caller : String) (upload_id : String)
    (chunk_index : Int) (chunk_data : List Nat) : UploadStore × ChunkResp :=
  if upload_id = "" ∨ chunk_data = [] then
    (st, .err 400 "Missing required chunk data")
  else
    match lookupStore st upload_id with
    | none => (st, .err 404 "Upload session not found")
    | some s =>
      if s.user_id ≠ caller then (st, .err 403 "Unauthorized access to upload session")
      else
        let s' := applyChunk s (chunk_index, chunk_data)
        (storeSet st upload_id s', .ok chunk_index s'.chunks_received s.total_chunks)

inductive FinalizeResp
  | ok (payload : List Nat) (chunks_processed : Nat)
  | err (code : Nat) (msg : String)
  deriving DecidableEq, Repr

/-- Reconstruction loop of `finalize_chunked_upload` (lines 877–891):
`for chunk_index in sorted(upload_session['chunks_data'].keys(), key=int)`,
concatenating each stored chunk file.  Every `chunks_data` entry has its chunk
file present in a single-session run, so the "missing chunk file" branch is
not taken. -/
def reconstruct (cd : List (Int × List Nat)) : List Nat :=
  (((cd.map Prod.fst).insertionSort (· ≤ ·)).map (fun k => (lookupA cd k).getD [])).flatten

/-- `finalize_chunked_upload` (lines 840–916).  The downstream
`process_complete_audio` collaborator receives the reconstructed payload; we
return the payload itself in the success response.  On success the session
file is deleted. -/
def finalize_chunked_upload (st : UploadStore) (caller : String) (upload_id : String) :
    UploadStore × FinalizeResp :=
  if upload_id = "" then (st, .err 400 "Missing upload_id")
  else
    match lookupStore st upload_id with
    | none => (st, .err 404 "Upload session not found")
    | some s =>
      if s.user_id ≠ caller then (st, .err 403 "Unauthorized access to upload session")
      else if s.chunks_received ≠ s.total_chunks then
        (st, .err 400 ("Missing chunks: " ++ toString s.chunks_received ++ "/" ++
          toString s.total_chunks))
      else
        (storeErase st upload_id, .ok (reconstruct s.chunks_data) s.chunks_received)

/-- A client-side sequence of `upload_chunk` calls against one session. -/
def runUploads (st : UploadStore) (caller : String) (upload_id : String)
    (arr : List (Int × List Nat)) : UploadStore :=
  arr.foldl (fun acc p => (upload_chunk acc caller upload_id p.1 p.2).1) st

/-- The last bytes sent for index `k` in an upload sequence, if any
(what the overwriting chunk-file store retains). -/
def lastVal : List (Int × List Nat) → Int → Option (List Nat)
  | [], _ => none
  | p :: t, k =>
    match lastVal t k with
    | some v => some v
    | none => if p.1 = k then some p.2 else none

/-! ### Task orchestrator — src/backend/main.py -/

/-- `_is_valid_stream_url` (src/backend/main.py lines 382–391):
`any(platform in url for platform in supported_platforms)`. -/
def _is_valid_stream_url (url : String) : Bool :=
  ["twitch.tv", "youtube.com", "youtu.be", "kick.com"].any (fun p => substrIn p url)

/-- Submit-time validation performed by `request_catchup`
(src/backend/main.py lines 89–94): duration allow-list then platform check. -/
def request_catchup_accepts (stream_url : String) (duration_minutes : Nat) : Bool :=
  decide (duration_minutes = 30 ∨ duration_minutes = 60) && _is_valid_stream_url stream_url

/-- `merge_transcripts` (src/backend/main.py lines 238–250): stable sort by
`index`, join the texts whose stripped form is non-empty with single spaces,
strip the result. -/
def merge_transcripts (ts : List TranscriptDict) : String :=
  let sorted_transcripts := ts.insertionSort (fun a b => a.index ≤ b.index)
  pyStrip (String.intercalate " "
    ((sorted_transcripts.map (fun t => t.text)).filter (fun t => pyStrip t ≠ "")))

/-- Platform detection inside `generate_ai_summary`
(src/backend/main.py lines 256–262). -/
def detectPlatformName (stream_url : String) : String :=
  if substrIn "twitch.tv" stream_url then "Twitch"
  else if substrIn "youtube.com" stream_url || substrIn "youtu.be" stream_url then "YouTube"
  else if substrIn "kick.com" stream_url then "Kick"
  else "Unknown"

/-- The three summary shapes `generate_ai_summary` can return
(src/backend/main.py lines 264–380).  The long f-string templates are carried
as constructors with their interpolated data: `basicLimited` is the
"⚠ Limited Content Available" placeholder returned for an empty or < 100
character transcript; `ai` is the OpenAI completion; `fallbackStats` is the
locally built statistics summary used when the OpenAI call raises. -/
inductive Summary
  | basicLimited (platform : String) (duration_minutes : Nat)
  | ai (content : String)
  | fallbackStats (platform : String) (duration_minutes : Nat) (transcript : String)
  deriving DecidableEq, Repr

/-- `generate_ai_summary(transcript, stream_url, duration_minutes)`
(src/backend/main.py lines 252–380).  The OpenAI call is the external
summarization collaborator, modelled by `openai : Except String String`
(in the source the call in fact always raises, because `aiohttp` is never
imported in `main.py`, which lands in the fallback branch — both branches are
kept so the collaborator stays abstract). -/
def generate_ai_summary (transcript : String) (stream_url : String)
    (duration_minutes : Nat) (openai : Except String String) : Summary :=
  let platform := detectPlatformName stream_url
  if pyStrip transcript = "" ∨ (pyStrip transcript).length < 100 then
    .basicLimited platform duration_minutes
  else
    match openai with
    | .ok content => .ai content
    | .error _ => .fallbackStats platform duration_minutes transcript

/-- The `result` dict stored on the task at completion
(src/backend/main.py lines 200–207). -/
structure ResultDict where
  summary : Summary
  fullTranscript : String
  clipsProcessed : Nat
  duration : Nat
  deriving DecidableEq, Repr

/-- One `update_task_status` write (src/backend/main.py lines 223–236):
status, progress, message, and optionally the result payload. -/
structure StatusUpdate where
  status : String
  progress : Nat
  message : String
  result : Option ResultDict
  deriving DecidableEq, Repr

/-- External collaborators of one background run of `process_catchup_async`. -/
structure OrchestratorEnv where
  /-- Outcome of `stream_processor.create_parallel_clips` (list of clips, or a
  raised exception message). -/
  create_parallel_clips : Except String (List Clip)
  /-- Per-clip transcription outcomes. -/
  transcribeEnv : TranscribeEnv
  /-- Outcome of the OpenAI chat-completion call. -/
  openai : Except String String

/-- `process_catchup_async(task_id)` (src/backend/main.py lines 160–221) as the
sequence of `update_task_status` writes it performs.  Any exception in the try
block (a raised extraction error or the explicit `raise` on zero clips) lands
in the handler that writes `("failed", 0, "Error: ...")`.  Transcription and
summarization never raise: `transcribe_single_clip` catches per-clip errors
and `generate_ai_summary` catches the OpenAI error internally. -/
def process_catchup_async (env : OrchestratorEnv) (stream_url : String)
    (duration_minutes : Nat) : List StatusUpdate :=
  let u1 : StatusUpdate := ⟨"extracting_stream", 10, "Analyzing stream...", none⟩
  match env.create_parallel_clips with
  | .error e => [u1, ⟨"failed", 0, "Error: " ++ e, none⟩]
  | .ok clips =>
    if clips.isEmpty then
      [u1, ⟨"failed", 0, "Error: No clips could be extracted from stream", none⟩]
    else
      let u2 : StatusUpdate :=
        ⟨"transcribing", 40, "Transcribing " ++ toString clips.length ++ " clips...", none⟩
      let transcripts := transcribe_clips_parallel 5 env.transcribeEnv clips
      let u3 : StatusUpdate := ⟨"summarizing", 80, "Generating AI summary...", none⟩
      let combined_transcript := merge_transcripts transcripts
      let summary := generate_ai_summary combined_transcript stream_url duration_minutes
        env.openai
      let result : ResultDict :=
        ⟨summary, combined_transcript.take 5000, clips.length, duration_minutes⟩
      [u1, u2, u3, ⟨"complete", 100, "Summary generated successfully!", some result⟩]

/-- The task's full status history: the `task_info` record created by
`request_catchup` (status "initialized", progress 0), followed by every
`update_task_status` write of the background worker. -/
def catchupTaskTrace (env : OrchestratorEnv) (stream_url : String)
    (duration_minutes : Nat) : List StatusUpdate :=
  ⟨"initialized", 0, "Task initialized", none⟩ ::
    process_catchup_async env stream_url duration_minutes

/-- A fully received one-chunk session (used to witness C6). -/
def completeSessionC6 : UploadSession :=
  { user_id := "alice", total_size := 4, total_chunks := 1, format := "pcm16",
    sample_rate := 16000, chunks_received := 1, chunks_data := [(0, [7])] }

/-- Concrete one-clip environment whose only transcription fails (used for the
C1 counterexample). -/
def envAllFailOne : OrchestratorEnv :=
  { create_parallel_clips := .ok [⟨some "c1", none, "twitch", 60⟩],
    transcribeEnv := ⟨fun _ => .failure "Upload failed: 500"⟩,
    openai := .error "name aiohttp is not defined" }

/-- Concrete two-clip environment whose transcriptions all fail (used for the
C1 witness). -/
def envAllFailTwo : OrchestratorEnv :=
  { create_parallel_clips :=
      .ok [⟨some "c0", none, "twitch", 60⟩, ⟨some "c1", none, "twitch", 60⟩],
    transcribeEnv := ⟨fun _ => .failure "timeout"⟩,
    openai := .error "name aiohttp is not defined" }

/-! ### Helper lemmas -/

theorem listPrefixOf_iff (sub l : List Char) :
    listPrefixOf sub l = true ↔ ∃ post, l = sub ++ post := by
  induction sub generalizing l with
  | nil => simp [listPrefixOf]
  | cons a as ih =>
    cases l with
    | nil => simp [listPrefixOf]
    | cons b bs =>
      simp only [listPrefixOf, Bool.and_eq_true, decide_eq_true_eq, ih, List.cons_append,
        List.cons.injEq]
      constructor
      · rintro ⟨rfl, post, rfl⟩; exact ⟨post, rfl, rfl⟩
      · rintro ⟨post, rfl, rfl⟩; exact ⟨rfl, post, rfl⟩

theorem listInfixOf_iff (sub l : List Char) :
    listInfixOf sub l = true ↔ ∃ pre post, l = pre ++ sub ++ post := by
  induction l with
  | nil =>
    simp only [listInfixOf, listPrefixOf_iff]
    constructor
    · rintro ⟨post, h⟩
      exact ⟨[], post, by simpa using h⟩
    · rintro ⟨pre, post, h⟩
      exact ⟨post, by
        rcases List.append_eq_nil.mp (List.append_eq_nil.mp h.symm).1 with ⟨h1, h2⟩
        simp [h1, h2] at h ⊢; exact h⟩
  | cons b bs ih =>
    simp only [listInfixOf, Bool.or_eq_true, listPrefixOf_iff, ih]
    constructor
    · rintro (⟨post, h⟩ | ⟨pre, post, h⟩)
      · exact ⟨[], post, by simpa using h⟩
      · exact ⟨b :: pre, post, by simp [h]⟩
    · rintro ⟨pre, post, h⟩
      cases pre with
      | nil => exact Or.inl ⟨post, by simpa using h⟩
      | cons p ps =>
        simp only [List.cons_append, List.cons.injEq] at h
        exact Or.inr ⟨ps, post, h.2⟩

@[simp] theorem mapIdxFrom_nil (f : Nat → α → β) (i : Nat) : mapIdxFrom f i [] = [] := rfl

@[simp] theorem mapIdxFrom_cons (f : Nat → α → β) (i : Nat) (a : α) (as : List α) :
    mapIdxFrom f i (a :: as) = f i a :: mapIdxFrom f (i + 1) as := rfl

@[simp] theorem length_mapIdxFrom (f : Nat → α → β) (i : Nat) (l : List α) :
    (mapIdxFrom f i l).length = l.length := by
  induction l generalizing i with
  | nil => rfl
  | cons a as ih => simp [mapIdxFrom, ih]

theorem getElem?_mapIdxFrom (f : Nat → α → β) (i : Nat) (l : List α) (k : Nat) :
    (mapIdxFrom f i l)[k]? = l[k]?.map (f (i + k)) := by
  induction l generalizing i k with
  | nil => simp
  | cons a as ih =>
    cases k with
    | zero => simp
    | succ k =>
      simp only [mapIdxFrom_cons, List.getElem?_cons_succ, ih]
      have : i + 1 + k = i + (k + 1) := by omega
      rw [this]

theorem mem_mapIdxFrom {f : Nat → α → β} {i : Nat} {l : List α} {b : β} :
    b ∈ mapIdxFrom f i l → ∃ k, k < l.length ∧ ∃ a, l[k]? = some a ∧ b = f (i + k) a := by
  intro hb
  induction l generalizing i with
  | nil => simp [mapIdxFrom] at hb
  | cons a as ih =>
    simp only [mapIdxFrom_cons, List.mem_cons] at hb
    rcases hb with rfl | hb
    · exact ⟨0, by simp, a, by simp⟩
    · obtain ⟨k, hk, a', ha', rfl⟩ := ih hb
      refine ⟨k + 1, by simpa using hk, a', by simpa using ha', ?_⟩
      have : i + (k + 1) = i + 1 + k := by omega
      rw [this]

theorem mapIdxFrom_take_drop (f : Nat → α → β) (t : Nat) (i : Nat) (l : List α) :
    mapIdxFrom f i l = mapIdxFrom f i (l.take t) ++ mapIdxFrom f (i + t) (l.drop t) := by
  induction t generalizing i l with
  | zero => simp
  | succ t ih =>
    cases l with
    | nil => simp
    | cons a as =>
      simp only [List.take_succ_cons, List.drop_succ_cons, mapIdxFrom_cons, List.cons_append]
      rw [ih (i + 1) as]
      have : i + 1 + t = i + (t + 1) := by omega
      rw [this]

theorem lookupA_assocSet (cd : List (Int × α)) (k' : Int) (v : α) (k : Int) :
    lookupA (assocSet cd k' v) k = if k' = k then some v else lookupA cd k := by
  induction cd with
  | nil => by_cases h : k' = k <;> simp [assocSet, lookupA, h]
  | cons p t ih =>
    obtain ⟨pk, pv⟩ := p
    by_cases h1 : pk = k'
    · subst h1
      by_cases h2 : pk = k <;> simp [assocSet, lookupA, h2]
    · by_cases h2 : pk = k
      · subst h2
        have hne : ¬ k' = pk := fun hh => h1 hh.symm
        simp [assocSet, lookupA, h1, hne]
      · simp [assocSet, lookupA, h1, h2, ih]

theorem keys_assocSet (cd : List (Int × α)) (k : Int) (v : α) :
    (assocSet cd k v).map Prod.fst =
      if k ∈ cd.map Prod.fst then cd.map Prod.fst else cd.map Prod.fst ++ [k] := by
  induction cd with
  | nil => simp [assocSet]
  | cons p t ih =>
    obtain ⟨pk, pv⟩ := p
    by_cases h : pk = k
    · subst h; simp [assocSet]
    · have hne : ¬ k = pk := fun hh => h hh.symm
      by_cases hk : k ∈ t.map Prod.fst <;> simp [assocSet, h, ih, hne, hk]

theorem assocSet_of_not_mem_keys (cd : List (Int × α)) (k : Int) (v : α)
    (h : k ∉ cd.map Prod.fst) : assocSet cd k v = cd ++ [(k, v)] := by
  induction cd with
  | nil => simp [assocSet]
  | cons p t ih =>
    obtain ⟨pk, pv⟩ := p
    simp only [List.map_cons, List.mem_cons] at h
    push_neg at h
    have : pk ≠ k := fun hh => h.1 hh.symm
    simp [assocSet, this, ih h.2]

theorem transcribeGo_eq_mapIdxFrom (mw : Nat) (env : TranscribeEnv) :
    ∀ (fuel i : Nat) (clips : List Clip), 1 ≤ mw → clips.length ≤ fuel →
      transcribeGo mw env fuel i clips =
        mapIdxFrom (fun k clip => transcribe_single_clip clip k env) i clips := by
  intro fuel
  induction fuel with
  | zero =>
    intro i clips _ hlen
    cases clips with
    | nil => rfl
    | cons c cs => simp at hlen
  | succ fuel ih =>
    intro i clips hmw hlen
    cases clips with
    | nil => rfl
    | cons c cs =>
      have hdrop : ((c :: cs).drop mw).length ≤ fuel := by
        rw [List.length_drop]
        simp only [List.length_cons] at hlen ⊢
        omega
      simp only [transcribeGo, ih (i + mw) ((c :: cs).drop mw) hmw hdrop]
      exact (mapIdxFrom_take_drop _ mw i (c :: cs)).symm

theorem transcribe_clips_parallel_eq (mw : Nat) (env : TranscribeEnv) (clips : List Clip)
    (hmw : 1 ≤ mw) :
    transcribe_clips_parallel mw env clips =
      mapIdxFrom (fun k clip => transcribe_single_clip clip k env) 0 clips :=
  transcribeGo_eq_mapIdxFrom mw env clips.length 0 clips hmw le_rfl

theorem lookupStore_storeSet (st : UploadStore) (k : String) (v : UploadSession)
    (k' : String) :
    lookupStore (storeSet st k v) k' = if k = k' then some v else lookupStore st k' := by
  induction st with
  | nil => by_cases h : k = k' <;> simp [storeSet, lookupStore, h]
  | cons p t ih =>
    obtain ⟨pk, pv⟩ := p
    by_cases h1 : pk = k
    · subst h1
      by_cases h2 : pk = k' <;> simp [storeSet, lookupStore, h2]
    · by_cases h2 : pk = k'
      · subst h2
        have hne : ¬ k = pk := fun hh => h1 hh.symm
        simp [storeSet, lookupStore, h1, hne]
      · simp [storeSet, lookupStore, h1, h2, ih]

theorem lookupStore_storeErase (st : UploadStore) (k : String) :
    lookupStore (storeErase st k) k = none := by
  induction st with
  | nil => rfl
  | cons p t ih =>
    obtain ⟨pk, pv⟩ := p
    by_cases h : pk = k
    · simpa [storeErase, List.filter, h] using ih
    · simpa [storeErase, List.filter, h, lookupStore] using ih

theorem upload_chunk_accepted (st : UploadStore) (caller uid : String) (idx : Int)
    (bytes : List Nat) (s : UploadSession) (huid : uid ≠ "") (hb : bytes ≠ [])
    (hs : lookupStore st uid = some s) (hown : s.user_id = caller) :
    upload_chunk st caller uid idx bytes =
      (storeSet st uid (applyChunk s (idx, bytes)),
        .ok idx (s.chunks_received + 1) s.total_chunks) := by
  have hguard : ¬ (uid = "" ∨ bytes = []) := by simp [huid, hb]
  simp [upload_chunk, hguard, hs, hown, applyChunk]

theorem runUploads_singleton (caller uid : String) (huid : uid ≠ "") :
    ∀ (arr : List (Int × List Nat)) (s : UploadSession), (∀ p ∈ arr, p.2 ≠ []) →
      s.user_id = caller →
      runUploads [(uid, s)] caller uid arr = [(uid, arr.foldl applyChunk s)] := by
  intro arr
  induction arr with
  | nil => intro s _ _; rfl
  | cons p t ih =>
    intro s hb hown
    have hp : p.2 ≠ [] := hb p (List.mem_cons_self p t)
    have hlook : lookupStore [(uid, s)] uid = some s := by simp [lookupStore]
    have step := upload_chunk_accepted [(uid, s)] caller uid p.1 p.2 s huid hp hlook hown
    have hfold : runUploads [(uid, s)] caller uid (p :: t) =
        runUploads (upload_chunk [(uid, s)] caller uid p.1 p.2).1 caller uid t := rfl
    rw [hfold, step]
    have hset : storeSet [(uid, s)] uid (applyChunk s (p.1, p.2)) =
        [(uid, applyChunk s (p.1, p.2))] := by simp [storeSet]
    rw [hset, ih (applyChunk s (p.1, p.2)) (fun q hq => hb q (List.mem_cons_of_mem p hq))
      (by simp [applyChunk, hown])]
    rfl

theorem foldl_applyChunk_received (arr : List (Int × List Nat)) :
    ∀ s : UploadSession, (arr.foldl applyChunk s).chunks_received =
      s.chunks_received + arr.length := by
  induction arr with
  | nil => intro s; simp
  | cons p t ih =>
    intro s
    simp only [List.foldl_cons, ih, applyChunk, List.length_cons]
    omega

theorem foldl_applyChunk_static (arr : List (Int × List Nat)) :
    ∀ s : UploadSession, (arr.foldl applyChunk s).user_id = s.user_id ∧
      (arr.foldl applyChunk s).total_chunks = s.total_chunks := by
  induction arr with
  | nil => intro s; exact ⟨rfl, rfl⟩
  | cons p t ih =>
    intro s
    simpa only [List.foldl_cons, applyChunk] using ih (applyChunk s p)

theorem foldl_applyChunk_data (arr : List (Int × List Nat)) :
    ∀ s : UploadSession, (arr.foldl applyChunk s).chunks_data =
      arr.foldl (fun cd p => assocSet cd p.1 p.2) s.chunks_data := by
  induction arr with
  | nil => intro s; rfl
  | cons p t ih =>
    intro s
    simp only [List.foldl_cons, ih, applyChunk]

theorem lookupA_foldl_assocSet (arr : List (Int × List Nat)) :
    ∀ (cd : List (Int × List Nat)) (k : Int),
      lookupA (arr.foldl (fun cd p => assocSet cd p.1 p.2) cd) k =
        match lastVal arr k with
        | some v => some v
        | none => lookupA cd k := by
  induction arr with
  | nil => intro cd k; rfl
  | cons p t ih =>
    intro cd k
    simp only [List.foldl_cons, lastVal]
    rw [ih (assocSet cd p.1 p.2) k, lookupA_assocSet]
    cases lastVal t k with
    | some v => rfl
    | none =>
      by_cases h : p.1 = k <;> simp [h]

theorem foldl_assocSet_of_nodup (arr : List (Int × List Nat)) :
    ∀ cd : List (Int × List Nat),
      (cd.map Prod.fst ++ arr.map Prod.fst).Nodup →
      arr.foldl (fun cd p => assocSet cd p.1 p.2) cd = cd ++ arr := by
  induction arr with
  | nil => intro cd _; simp
  | cons p t ih =>
    intro cd hnd
    have hnotin : p.1 ∉ cd.map Prod.fst := by
      intro hmem
      rcases List.nodup_append.mp hnd with ⟨_, _, hdisj⟩
      exact hdisj hmem (by simp)
    simp only [List.foldl_cons]
    rw [assocSet_of_not_mem_keys cd p.1 p.2 hnotin]
    have hnd' : ((cd ++ [(p.1, p.2)]).map Prod.fst ++ t.map Prod.fst).Nodup := by
      simp only [List.map_append, List.map_cons, List.map_nil] at hnd ⊢
      have : cd.map Prod.fst ++ [p.1] ++ t.map Prod.fst =
          cd.map Prod.fst ++ (p.1 :: t.map Prod.fst) := by
        simp
      rw [this]
      simpa using hnd
    rw [ih (cd ++ [(p.1, p.2)]) hnd']
    simp

theorem reconstruct_of_perm_range (arr : List (Int × List Nat)) (n : Nat)
    (hperm : List.Perm (arr.map Prod.fst) ((List.range n).map (fun i => Int.ofNat i))) :
    reconstruct arr =
      (((List.range n).map (fun i => (lookupA arr (Int.ofNat i)).getD [])).flatten) := by
  unfold reconstruct
  have hsorted1 : ((arr.map Prod.fst).insertionSort (· ≤ ·)).Sorted (· ≤ ·) :=
    List.sorted_insertionSort (· ≤ ·) (arr.map Prod.fst)
  have hsorted2 : ((List.range n).map (fun i => Int.ofNat i)).Sorted (· ≤ ·) := by
    rw [List.Sorted, List.pairwise_map]
    refine (List.pairwise_lt_range n).imp ?_
    intro a b h
    exact Int.ofNat_le.mpr (le_of_lt h)
  have hp : List.Perm ((arr.map Prod.fst).insertionSort (· ≤ ·))
      ((List.range n).map (fun i => Int.ofNat i)) :=
    (List.perm_insertionSort (· ≤ ·) (arr.map Prod.fst)).trans hperm
  have heq : (arr.map Prod.fst).insertionSort (· ≤ ·) =
      (List.range n).map (fun i => Int.ofNat i) :=
    List.eq_of_perm_of_sorted hp hsorted1 hsorted2
  rw [heq, List.map_map]
  rfl

theorem finalize_runUploads (owner uid : String) (tsize n : Nat)
    (arr : List (Int × List Nat)) (huid : uid ≠ "") (hb : ∀ p ∈ arr, p.2 ≠ []) :
    finalize_chunked_upload (runUploads [(uid, mkUploadSession owner tsize n)] owner uid arr)
        owner uid =
      if arr.length = n then
        ([], .ok (reconstruct (arr.foldl (fun cd p => assocSet cd p.1 p.2) [])) arr.length)
      else
        ([(uid, arr.foldl applyChunk (mkUploadSession owner tsize n))],
          .err 400 ("Missing chunks: " ++ toString arr.length ++ "/" ++ toString n)) := by
  rw [runUploads_singleton owner uid huid arr _ hb rfl]
  have hrec : (arr.foldl applyChunk (mkUploadSession owner tsize n)).chunks_received =
      arr.length := by
    rw [foldl_applyChunk_received]
    simp [mkUploadSession]
  have huser : (arr.foldl applyChunk (mkUploadSession owner tsize n)).user_id = owner :=
    (foldl_applyChunk_static arr _).1
  have htot : (arr.foldl applyChunk (mkUploadSession owner tsize n)).total_chunks = n :=
    (foldl_applyChunk_static arr _).2
  have hdata : (arr.foldl applyChunk (mkUploadSession owner tsize n)).chunks_data =
      arr.foldl (fun cd p => assocSet cd p.1 p.2) [] := by
    rw [foldl_applyChunk_data]
    rfl
  have hlook : lookupStore [(uid, arr.foldl applyChunk (mkUploadSession owner tsize n))]
      uid = some (arr.foldl applyChunk (mkUploadSession owner tsize n)) := by
    simp [lookupStore]
  by_cases hlen : arr.length = n
  · rw [if_pos hlen]
    simp [finalize_chunked_upload, huid, hlook, huser, hrec, htot, hlen, hdata,
      storeErase, List.filter]
  · rw [if_neg hlen]
    simp [finalize_chunked_upload, huid, hlook, huser, hrec, htot, hlen, hdata]

theorem searchTokenAux_digits (u : Char) (ds : List Char) :
    ∀ (r : Option Nat) (l : List Char), ds ≠ [] → (∀ c ∈ ds, c.isDigit = true) →
      searchTokenAux u r (ds ++ l) =
        searchTokenAux u
          (some (ds.foldl (fun a c => a * 10 + (c.toNat - 48)) (r.getD 0))) l := by
  induction ds with
  | nil => intro r l h _; exact absurd rfl h
  | cons c cs ih =>
    intro r l _ hdig
    have hc : c.isDigit = true := hdig c (List.mem_cons_self c cs)
    by_cases hcs : cs = []
    · subst hcs
      simp [searchTokenAux, hc]
    · have step : searchTokenAux u r ((c :: cs) ++ l) =
          searchTokenAux u (some ((r.getD 0) * 10 + (c.toNat - 48))) (cs ++ l) := by
        simp [searchTokenAux, hc]
      rw [step, ih (some ((r.getD 0) * 10 + (c.toNat - 48))) l hcs
        (fun d hd => hdig d (List.mem_cons_of_mem c hd))]
      rfl

theorem searchToken_renderToks (u : Char) :
    ∀ toks : List (List Char × Char),
      (∀ t ∈ toks, t.1 ≠ [] ∧ (∀ c ∈ t.1, c.isDigit = true) ∧ t.2.isDigit = false) →
      searchToken u (renderToks toks) =
        (toks.find? (fun t => t.2 = u)).map (fun t => digitsToNat t.1) := by
  intro toks
  induction toks with
  | nil => intro _; rfl
  | cons t ts ih =>
    intro hwf
    obtain ⟨hne, hdig, hunit⟩ := hwf t (List.mem_cons_self t ts)
    obtain ⟨ds, u'⟩ := t
    have hrender : renderToks ((ds, u') :: ts) = ds ++ (u' :: renderToks ts) := by
      simp [renderToks]
    rw [searchToken, hrender,
      searchTokenAux_digits u ds none (u' :: renderToks ts) hne hdig]
    have hstep : searchTokenAux u
        (some (ds.foldl (fun a c => a * 10 + (c.toNat - 48)) ((none : Option Nat).getD 0)))
        (u' :: renderToks ts) =
        if u' = u then some (digitsToNat ds) else searchTokenAux u none (renderToks ts) := by
      simp only [searchTokenAux, hunit, Bool.false_eq_true, if_false]
      by_cases hu : u' = u
      · simp [hu, digitsToNat]
      · simp [hu]
    rw [hstep]
    by_cases hu : u' = u
    · rw [if_pos hu]
      have : (List.find? (fun t => t.2 = u) ((ds, u') :: ts)) = some (ds, u') := by
        rw [List.find?_cons_of_pos]
        simpa using hu
      rw [this]
      rfl
    · rw [if_neg hu]
      have : (List.find? (fun t => t.2 = u) ((ds, u') :: ts)) =
          List.find? (fun t => t.2 = u) ts := by
        rw [List.find?_cons_of_neg]
        simpa using hu
      rw [this]
      exact ih (fun t' ht' => hwf t' (List.mem_cons_of_mem _ ht'))

theorem perm_eq_of_length_le_one {α : Type _} {l l' : List α} (h : List.Perm l l')
    (hl : l.length ≤ 1) : l = l' := by
  cases l with
  | nil => exact (h.symm.eq_nil).symm
  | cons a t =>
    cases t with
    | nil => exact (List.perm_singleton.mp h.symm).symm
    | cons b t2 => simp at hl

theorem filter_unit_length_le_one (toks : List (List Char × Char)) (u : Char)
    (hunits : (toks.map Prod.snd).Nodup) :
    (toks.filter (fun t => t.2 = u)).length ≤ 1 := by
  induction toks with
  | nil => simp
  | cons t ts ih =>
    simp only [List.map_cons, List.nodup_cons] at hunits
    obtain ⟨hnot, hnd⟩ := hunits
    by_cases h : t.2 = u
    · have hnil : ts.filter (fun t' => decide (t'.2 = u)) = [] := by
        rw [List.filter_eq_nil_iff]
        intro t' ht' hdec
        exact hnot (by
          rw [show t.2 = t'.2 from by
            rw [h]; exact (of_decide_eq_true hdec).symm]
          exact List.mem_map_of_mem Prod.snd ht')
      simp [List.filter_cons, h, hnil]
    · simp only [List.filter_cons, decide_eq_true_eq, h, if_false]
      exact ih hnd

theorem merge_transcripts_all_empty (ts : List TranscriptDict)
    (h : ∀ t ∈ ts, t.text = "") : merge_transcripts ts = "" := by
  unfold merge_transcripts
  have hfilter : ((ts.insertionSort (fun a b => a.index ≤ b.index)).map
      (fun t => t.text)).filter (fun t => pyStrip t ≠ "") = [] := by
    rw [List.filter_eq_nil_iff]
    intro s hs
    obtain ⟨t, ht, rfl⟩ := List.mem_map.mp hs
    have htts : t ∈ ts := (List.mem_insertionSort _).mp ht
    rw [h t htts]
    decide
  simp only [hfilter]
  rfl

theorem transcribe_all_failed_empty (env : TranscribeEnv) (clips : List Clip)
    (hfail : ∀ k, ∃ e, env.outcome k = .failure e) :
    ∀ t ∈ transcribe_clips_parallel 5 env clips, t.text = "" := by
  intro t ht
  rw [transcribe_clips_parallel_eq 5 env clips (by omega)] at ht
  obtain ⟨k, _, a, _, rfl⟩ := mem_mapIdxFrom ht
  obtain ⟨e, he⟩ := hfail (0 + k)
  unfold transcribe_single_clip
  rw [he]

theorem status_not_failed_of_map {l : List StatusUpdate} {ss : List String}
    (h : l.map (fun u => u.status) = ss) (hs : ∀ s ∈ ss, s ≠ "failed") :
    ∀ u ∈ l, u.status ≠ "failed" := fun _u hu =>
  hs _ (h ▸ List.mem_map_of_mem (fun v => v.status) hu)

/-! ## Claim C2 — slice-plan computation -/

/-- **C2.** For every duration string parsing to `availableSeconds > 0` and
every requested window: if `availableSeconds ≤ requestedSeconds`
(`= window_minutes * 60`) the plan covers the whole recording (no slicing);
otherwise it is a tail window whose start offset equals
`availableSeconds - requestedSeconds` (a nonnegative integer), formatted as
zero-padded `HH:MM:SS` (the `MM` and `SS` components are `< 60` and the three
components recombine to the offset). -/
theorem slice_plan_correct (duration_str : String) (window_minutes : Nat)
    (hpos : 0 < parse_twitch_duration duration_str) :
    (parse_twitch_duration duration_str ≤ window_minutes * 60 →
      compute_slice_parameters duration_str window_minutes =
        .ok (.whole (parse_twitch_duration duration_str))) ∧
    (window_minutes * 60 < parse_twitch_duration duration_str →
      ∃ off, off = parse_twitch_duration duration_str - window_minutes * 60 ∧
        compute_slice_parameters duration_str window_minutes =
          .ok (.tailWindow (window_minutes * 60) (formatHMS off) off) ∧
        (off : Int) = (parse_twitch_duration duration_str : Int) - (window_minutes * 60 : Int) ∧
        0 ≤ (off : Int) ∧
        formatHMS off =
          pad2 (off / 3600) ++ ":" ++ pad2 (off % 3600 / 60) ++ ":" ++ pad2 (off % 60) ∧
        off % 3600 / 60 < 60 ∧ off % 60 < 60 ∧
        3600 * (off / 3600) + 60 * (off % 3600 / 60) + off % 60 = off) := by
  constructor
  · intro hle
    simp only [compute_slice_parameters]
    rw [if_neg (by omega), if_pos hle]
  · intro hlt
    refine ⟨parse_twitch_duration duration_str - window_minutes * 60, rfl, ?_, ?_, ?_, rfl,
      ?_, ?_, ?_⟩
    · simp only [compute_slice_parameters]
      rw [if_neg (by omega), if_neg (by omega)]
    · omega
    · omega
    · omega
    · omega
    · omega

/-- Witness for C2: spec scenario A, duration `"45m"`, requested window 30
minutes ⇒ tail window starting at `"00:15:00"`. -/
theorem slice_plan_correct_witness :
    0 < parse_twitch_duration "45m" ∧
    ((parse_twitch_duration "45m" ≤ 30 * 60 →
      compute_slice_parameters "45m" 30 = .ok (.whole (parse_twitch_duration "45m"))) ∧
    (30 * 60 < parse_twitch_duration "45m" →
      ∃ off, off = parse_twitch_duration "45m" - 30 * 60 ∧
        compute_slice_parameters "45m" 30 =
          .ok (.tailWindow (30 * 60) (formatHMS off) off) ∧
        (off : Int) = (parse_twitch_duration "45m" : Int) - (30 * 60 : Int) ∧
        0 ≤ (off : Int) ∧
        formatHMS off =
          pad2 (off / 3600) ++ ":" ++ pad2 (off % 3600 / 60) ++ ":" ++ pad2 (off % 60) ∧
        off % 3600 / 60 < 60 ∧ off % 60 < 60 ∧
        3600 * (off / 3600) + 60 * (off % 3600 / 60) + off % 60 = off)) :=
  ⟨by decide, slice_plan_correct "45m" 30 (by decide)⟩

/-! ## Claim C10 — submit-time platform validation -/

/-- **C10.** `_is_valid_stream_url` accepts a URL iff one of the substrings
`twitch.tv`, `youtube.com`, `youtu.be`, `kick.com` occurs anywhere in it;
consequently a URL of a different domain that merely embeds one of these
names (here in its query string) is accepted. -/
theorem valid_stream_url_iff :
    (∀ url : String,
      _is_valid_stream_url url = true ↔
        ∃ p ∈ ["twitch.tv", "youtube.com", "youtu.be", "kick.com"],
          ∃ pre post, url.data = pre ++ p.data ++ post) ∧
    _is_valid_stream_url "https://evil.example/?ref=twitch.tv" = true := by
  constructor
  · intro url
    simp only [_is_valid_stream_url, List.any_eq_true, substrIn]
    constructor
    · rintro ⟨p, hp, hinf⟩
      exact ⟨p, hp, (listInfixOf_iff p.data url.data).mp hinf⟩
    · rintro ⟨p, hp, hdec⟩
      exact ⟨p, hp, (listInfixOf_iff p.data url.data).mpr hdec⟩
  · decide

/-! ## Claim C9 — progress bounds and monotonicity -/

/-- **C9.** Along every possible run of the background worker, every status
record carries a progress value in `[0, 100]`, and over the prefix of the
status history before any `failed` update the progress values are
monotonically non-decreasing. -/
theorem progress_monotone (env : OrchestratorEnv) (stream_url : String)
    (duration_minutes : Nat) :
    (∀ u ∈ catchupTaskTrace env stream_url duration_minutes, u.progress ≤ 100) ∧
    List.Chain' (· ≤ ·)
      (((catchupTaskTrace env stream_url duration_minutes).takeWhile
          (fun u => u.status != "failed")).map (fun u => u.progress)) := by
  have bound : ∀ (l : List StatusUpdate) (ps : List Nat),
      l.map (fun u => u.progress) = ps → (∀ p ∈ ps, p ≤ 100) →
      ∀ u ∈ l, u.progress ≤ 100 := by
    intro l ps h hb u hu
    exact hb _ (h ▸ List.mem_map_of_mem (fun u => u.progress) hu)
  unfold catchupTaskTrace process_catchup_async
  cases env.create_parallel_clips with
  | error e =>
    constructor
    · exact bound _ [0, 10, 0] (by simp) (by decide)
    · rw [List.takeWhile_cons_of_pos (by simp), List.takeWhile_cons_of_pos (by simp),
        List.takeWhile_cons_of_neg (by simp)]
      simp [List.chain'_cons]
  | ok clips =>
    cases clips with
    | nil =>
      constructor
      · exact bound _ [0, 10, 0] (by simp) (by decide)
      · simp only [List.isEmpty_nil, if_true]
        rw [List.takeWhile_cons_of_pos (by simp), List.takeWhile_cons_of_pos (by simp),
          List.takeWhile_cons_of_neg (by simp)]
        simp [List.chain'_cons]
    | cons c cs =>
      constructor
      · exact bound _ [0, 10, 40, 80, 100] (by simp) (by decide)
      · simp only [List.isEmpty_cons, Bool.false_eq_true, if_false]
        rw [List.takeWhile_cons_of_pos (by simp), List.takeWhile_cons_of_pos (by simp),
          List.takeWhile_cons_of_pos (by simp), List.takeWhile_cons_of_pos (by simp),
          List.takeWhile_cons_of_pos (by simp)]
        simp [List.chain'_cons]

/-! ## Claim C7 — the parallel transcription engine drops nothing and
preserves index order -/

/-- **C7.** For every clip list, `transcribe_clips_parallel` returns exactly
one result per input clip, the `k`-th result carries index `k` (so the list is
sorted by index regardless of completion order), and a clip whose
transcription raises yields a result with empty `text` and a populated
`error` without aborting the batch or the run. -/
theorem transcribe_all_properties (mw : Nat) (env : TranscribeEnv) (clips : List Clip)
    (hmw : 1 ≤ mw) :
    (transcribe_clips_parallel mw env clips).length = clips.length ∧
    (∀ k, k < clips.length →
      ∃ t, (transcribe_clips_parallel mw env clips)[k]? = some t ∧ t.index = k) ∧
    ((transcribe_clips_parallel mw env clips).Pairwise (fun a b => a.index ≤ b.index)) ∧
    (∀ k e, env.outcome k = .failure e → k < clips.length →
      ∃ t, (transcribe_clips_parallel mw env clips)[k]? = some t ∧
        t.text = "" ∧ t.error = some e) := by
  rw [transcribe_clips_parallel_eq mw env clips hmw]
  have hidx : ∀ k a, (transcribe_single_clip a k env).index = k := by
    intro k a
    unfold transcribe_single_clip
    cases env.outcome k <;> rfl
  have hget : ∀ (k : Nat) (hk : k < clips.length),
      (mapIdxFrom (fun k clip => transcribe_single_clip clip k env) 0 clips)[k]? =
        some (transcribe_single_clip (clips.get ⟨k, hk⟩) k env) := by
    intro k hk
    rw [getElem?_mapIdxFrom, List.getElem?_eq_getElem hk]
    simp [List.get_eq_getElem]
  refine ⟨length_mapIdxFrom _ _ _, ?_, ?_, ?_⟩
  · intro k hk
    exact ⟨transcribe_single_clip (clips.get ⟨k, hk⟩) k env, hget k hk, hidx _ _⟩
  · have hmap : (mapIdxFrom (fun k clip => transcribe_single_clip clip k env) 0 clips).map
        (fun t => t.index) = List.range' 0 clips.length := by
      have : ∀ i l, (mapIdxFrom (fun k (clip : Clip) => transcribe_single_clip clip k env)
          i l).map (fun t => t.index) = List.range' i l.length := by
        intro i l
        induction l generalizing i with
        | nil => rfl
        | cons a as ih => simp [mapIdxFrom, List.range'_succ, hidx, ih]
      exact this 0 clips
    have hpw : ((mapIdxFrom (fun k clip => transcribe_single_clip clip k env) 0 clips).map
        (fun t => t.index)).Pairwise (· ≤ ·) := by
      rw [hmap]
      exact (List.pairwise_lt_range' 0 clips.length).imp le_of_lt
    exact (List.pairwise_map).mp hpw
  · intro k e hk hklen
    refine ⟨transcribe_single_clip (clips.get ⟨k, hklen⟩) k env, hget k hklen, ?_⟩
    unfold transcribe_single_clip
    rw [hk]
    exact ⟨rfl, rfl⟩

/-- Witness for C7: a two-clip run with batch size 5 where clip 1 fails. -/
theorem transcribe_all_properties_witness :
    (1 ≤ 5) ∧
    ((transcribe_clips_parallel 5 witnessEnvC7 witnessClipsC7).length =
        witnessClipsC7.length ∧
    (∀ k, k < witnessClipsC7.length →
      ∃ t, (transcribe_clips_parallel 5 witnessEnvC7 witnessClipsC7)[k]? = some t ∧
        t.index = k) ∧
    ((transcribe_clips_parallel 5 witnessEnvC7 witnessClipsC7).Pairwise
      (fun a b => a.index ≤ b.index)) ∧
    (∀ k e, witnessEnvC7.outcome k = .failure e → k < witnessClipsC7.length →
      ∃ t, (transcribe_clips_parallel 5 witnessEnvC7 witnessClipsC7)[k]? = some t ∧
        t.text = "" ∧ t.error = some e)) :=
  ⟨by decide, transcribe_all_properties 5 witnessEnvC7 witnessClipsC7 (by decide)⟩

/-! ## Claim C3 — finalize success condition and reconstruction -/

/-- Counterexample to C3 as stated ("finalize succeeds iff every index in
`[0, totalChunks)` has been received at least once"): with `totalChunks = 2`,
sending index 0 twice makes finalize succeed (payload `[2]`, the last bytes for
index 0) although index 1 was never received; and sending `[0, 1, 0]` makes
finalize fail with "Missing chunks: 3/2" although every index was received. -/
theorem finalize_reconstruction_cex :
    (finalize_chunked_upload
        (runUploads [("u1", mkUploadSession "alice" 8 2)] "alice" "u1" [(0, [1]), (0, [2])])
        "alice" "u1").2 = .ok [2] 2 ∧
    (1 : Int) ∉ ([(0, [1]), (0, [2])] : List (Int × List Nat)).map Prod.fst ∧
    (finalize_chunked_upload
        (runUploads [("u2", mkUploadSession "bob" 8 2)] "bob" "u2"
          [(0, [1]), (1, [2]), (0, [3])]) "bob" "u2").2 =
      .err 400 "Missing chunks: 3/2" ∧
    (0 : Int) ∈ ([(0, [1]), (1, [2]), (0, [3])] : List (Int × List Nat)).map Prod.fst ∧
    (1 : Int) ∈ ([(0, [1]), (1, [2]), (0, [3])] : List (Int × List Nat)).map Prod.fst := by
  refine ⟨by decide, by decide, by decide, by decide, by decide⟩

/-- **C3 (amended).** Finalize of a fresh session succeeds iff the number of
accepted `upload_chunk` calls (duplicates counted) equals `totalChunks`; in
particular, when every index in `[0, totalChunks)` is uploaded exactly once, in
any arrival order, finalize succeeds and the reconstructed payload is the
concatenation of the chunk bytes in strictly ascending index order. -/
theorem finalize_reconstruction (owner uid : String) (tsize n : Nat)
    (arr : List (Int × List Nat)) (huid : uid ≠ "") (hb : ∀ p ∈ arr, p.2 ≠ [])
    (hnodup : (arr.map Prod.fst).Nodup)
    (hperm : List.Perm (arr.map Prod.fst) ((List.range n).map (fun i => Int.ofNat i))) :
    finalize_chunked_upload
        (runUploads [(uid, mkUploadSession owner tsize n)] owner uid arr) owner uid =
      ([], .ok (((List.range n).map
          (fun i => (lookupA arr (Int.ofNat i)).getD [])).flatten) n) ∧
    ∀ arr' : List (Int × List Nat), (∀ p ∈ arr', p.2 ≠ []) →
      ((∃ st' pl m, finalize_chunked_upload
          (runUploads [(uid, mkUploadSession owner tsize n)] owner uid arr') owner uid =
            (st', .ok pl m)) ↔ arr'.length = n) := by
  have hlen : arr.length = n := by
    have h1 := hperm.length_eq
    simpa using h1
  constructor
  · rw [finalize_runUploads owner uid tsize n arr huid hb, if_pos hlen]
    rw [foldl_assocSet_of_nodup arr [] (by simpa using hnodup), List.nil_append]
    rw [reconstruct_of_perm_range arr n hperm, hlen]
  · intro arr' hb'
    constructor
    · rintro ⟨st', pl, m, hfin⟩
      by_cases h : arr'.length = n
      · exact h
      · rw [finalize_runUploads owner uid tsize n arr' huid hb', if_neg h] at hfin
        simp at hfin
    · intro h
      exact ⟨[], reconstruct (arr'.foldl (fun cd p => assocSet cd p.1 p.2) []), arr'.length,
        by rw [finalize_runUploads owner uid tsize n arr' huid hb', if_pos h]⟩

/-- Witness for C3 (amended): spec scenario E, a four-chunk session receiving
chunks in arrival order `[2, 0, 3, 1]`. -/
theorem finalize_reconstruction_witness :
    ("u1" ≠ "" ∧
      (∀ p ∈ ([(2, [22]), (0, [0]), (3, [33]), (1, [11])] : List (Int × List Nat)),
        p.2 ≠ []) ∧
      (([(2, [22]), (0, [0]), (3, [33]), (1, [11])] :
        List (Int × List Nat)).map Prod.fst).Nodup ∧
      List.Perm (([(2, [22]), (0, [0]), (3, [33]), (1, [11])] :
          List (Int × List Nat)).map Prod.fst)
        ((List.range 4).map (fun i => Int.ofNat i))) ∧
    (finalize_chunked_upload
        (runUploads [("u1", mkUploadSession "alice" 16 4)] "alice" "u1"
          [(2, [22]), (0, [0]), (3, [33]), (1, [11])]) "alice" "u1" =
      ([], .ok (((List.range 4).map
          (fun i => (lookupA [(2, [22]), (0, [0]), (3, [33]), (1, [11])]
            (Int.ofNat i)).getD [])).flatten) 4) ∧
    ∀ arr' : List (Int × List Nat), (∀ p ∈ arr', p.2 ≠ []) →
      ((∃ st' pl m, finalize_chunked_upload
          (runUploads [("u1", mkUploadSession "alice" 16 4)] "alice" "u1" arr')
            "alice" "u1" = (st', .ok pl m)) ↔ arr'.length = 4)) :=
  ⟨⟨by decide, by decide, by decide, by decide⟩,
    finalize_reconstruction "alice" "u1" 16 4 [(2, [22]), (0, [0]), (3, [33]), (1, [11])]
      (by decide) (by decide) (by decide) (by decide)⟩

/-! ## Claim C4 — received-chunk counter -/

/-- Counterexample to C4 as stated ("increments the counter only on the first
receipt of that index"): re-sending index 0 leaves the counter at 2, not 1. -/
theorem upload_chunk_counter_cex :
    (lookupStore (runUploads [("u1", mkUploadSession "alice" 8 2)] "alice" "u1"
        [(0, [1]), (0, [2])]) "u1").map (fun s => s.chunks_received) = some 2 ∧
    (lookupStore (runUploads [("u1", mkUploadSession "alice" 8 2)] "alice" "u1"
        [(0, [1]), (0, [2])]) "u1").map (fun s => s.chunks_received) ≠ some 1 := by
  refine ⟨by decide, by decide⟩

/-- **C4 (amended).** `upload_chunk` increments the session's received-chunk
counter on every accepted call — including a re-send of an already-received
index — so after a sequence of accepted uploads the counter equals the total
number of calls (duplicates counted); a re-send does overwrite the stored
bytes: the bytes retained for an index are the last ones received. -/
theorem upload_chunk_counter (owner uid : String) (tsize n : Nat)
    (arr : List (Int × List Nat)) (huid : uid ≠ "") (hb : ∀ p ∈ arr, p.2 ≠ []) :
    ∃ s, lookupStore (runUploads [(uid, mkUploadSession owner tsize n)] owner uid arr) uid
        = some s ∧
      s.chunks_received = arr.length ∧
      ∀ k, lookupA s.chunks_data k = lastVal arr k := by
  rw [runUploads_singleton owner uid huid arr _ hb rfl]
  refine ⟨arr.foldl applyChunk (mkUploadSession owner tsize n), by simp [lookupStore],
    ?_, ?_⟩
  · rw [foldl_applyChunk_received]
    simp [mkUploadSession]
  · intro k
    rw [foldl_applyChunk_data, lookupA_foldl_assocSet]
    cases lastVal arr k <;> rfl

/-- Witness for C4 (amended): two sends of index 0 followed by one of index 1. -/
theorem upload_chunk_counter_witness :
    ("u1" ≠ "" ∧
      ∀ p ∈ ([(0, [1]), (0, [2]), (1, [3])] : List (Int × List Nat)), p.2 ≠ []) ∧
    ∃ s, lookupStore (runUploads [("u1", mkUploadSession "alice" 12 2)] "alice" "u1"
        [(0, [1]), (0, [2]), (1, [3])]) "u1" = some s ∧
      s.chunks_received = ([(0, [1]), (0, [2]), (1, [3])] : List (Int × List Nat)).length ∧
      ∀ k, lookupA s.chunks_data k = lastVal [(0, [1]), (0, [2]), (1, [3])] k :=
  ⟨⟨by decide, by decide⟩,
    upload_chunk_counter "alice" "u1" 12 2 [(0, [1]), (0, [2]), (1, [3])]
      (by decide) (by decide)⟩

/-! ## Claim C5 — putChunk request validation -/

/-- Counterexample to C5 as stated ("rejects whenever the chunkIndex lies
outside `[0, totalChunks)`"): a session with `totalChunks = 1` accepts index 5
with a 200-style response and a changed session state. -/
theorem upload_chunk_validation_cex :
    (upload_chunk [("u1", mkUploadSession "alice" 8 1)] "alice" "u1" 5 [3]).2 =
      .ok 5 1 1 ∧
    (upload_chunk [("u1", mkUploadSession "alice" 8 1)] "alice" "u1" 5 [3]).1 ≠
      [("u1", mkUploadSession "alice" 8 1)] ∧
    ¬ (0 ≤ (5 : Int) ∧ (5 : Int) < (Int.ofNat 1)) := by
  refine ⟨by decide, by decide, by decide⟩

/-- **C5 (amended).** `upload_chunk` rejects an unknown `uploadId` (404) and a
mismatched owner (403), in both cases leaving the store unchanged; but it
performs no validation of `chunkIndex` at all: for a known, owned session
every integer index — including any outside `[0, totalChunks)` — is accepted
and its bytes stored. -/
theorem upload_chunk_validation (st : UploadStore) (caller uid : String) (idx : Int)
    (bytes : List Nat) (huid : uid ≠ "") (hb : bytes ≠ []) :
    (lookupStore st uid = none →
      upload_chunk st caller uid idx bytes = (st, .err 404 "Upload session not found")) ∧
    (∀ s, lookupStore st uid = some s → s.user_id ≠ caller →
      upload_chunk st caller uid idx bytes =
        (st, .err 403 "Unauthorized access to upload session")) ∧
    (∀ s, lookupStore st uid = some s → s.user_id = caller →
      upload_chunk st caller uid idx bytes =
        (storeSet st uid (applyChunk s (idx, bytes)),
          .ok idx (s.chunks_received + 1) s.total_chunks) ∧
      ∃ s', lookupStore (upload_chunk st caller uid idx bytes).1 uid = some s' ∧
        lookupA s'.chunks_data idx = some bytes) := by
  have hguard : ¬ (uid = "" ∨ bytes = []) := by simp [huid, hb]
  refine ⟨?_, ?_, ?_⟩
  · intro hnone
    simp [upload_chunk, hguard, hnone]
  · intro s hs hown
    simp [upload_chunk, hguard, hs, hown]
  · intro s hs hown
    have hac := upload_chunk_accepted st caller uid idx bytes s huid hb hs hown
    refine ⟨hac, applyChunk s (idx, bytes), ?_, ?_⟩
    · rw [hac, lookupStore_storeSet]
      simp
    · simp [applyChunk, lookupA_assocSet]

/-- Witness for C5 (amended): exercises all three conjuncts on a concrete
store (the third at the out-of-range index 5). -/
theorem upload_chunk_validation_witness :
    ("u1" ≠ "" ∧ ([3] : List Nat) ≠ []) ∧
    ((lookupStore [("u0", mkUploadSession "bob" 8 1)] "u1" = none →
      upload_chunk [("u0", mkUploadSession "bob" 8 1)] "alice" "u1" 5 [3] =
        ([("u0", mkUploadSession "bob" 8 1)], .err 404 "Upload session not found")) ∧
    (∀ s, lookupStore [("u0", mkUploadSession "bob" 8 1)] "u1" = some s →
      s.user_id ≠ "alice" →
      upload_chunk [("u0", mkUploadSession "bob" 8 1)] "alice" "u1" 5 [3] =
        ([("u0", mkUploadSession "bob" 8 1)],
          .err 403 "Unauthorized access to upload session")) ∧
    (∀ s, lookupStore [("u0", mkUploadSession "bob" 8 1)] "u1" = some s →
      s.user_id = "alice" →
      upload_chunk [("u0", mkUploadSession "bob" 8 1)] "alice" "u1" 5 [3] =
        (storeSet [("u0", mkUploadSession "bob" 8 1)] "u1" (applyChunk s (5, [3])),
          .ok 5 (s.chunks_received + 1) s.total_chunks) ∧
      ∃ s', lookupStore
          (upload_chunk [("u0", mkUploadSession "bob" 8 1)] "alice" "u1" 5 [3]).1 "u1" =
          some s' ∧
        lookupA s'.chunks_data 5 = some [3])) :=
  ⟨⟨by decide, by decide⟩,
    upload_chunk_validation [("u0", mkUploadSession "bob" 8 1)] "alice" "u1" 5 [3]
      (by decide) (by decide)⟩

/-! ## Claim C6 — finalize is single-use -/

/-- **C6.** A successful finalize deletes the session: the resulting store has
no session under that `uploadId`, and every subsequent finalize of the same
`uploadId` (by any caller) fails with the "Upload session not found" error and
performs no second reconstruction. -/
theorem finalize_single_use (st st' : UploadStore) (caller uid : String)
    (pl : List Nat) (m : Nat)
    (h : finalize_chunked_upload st caller uid = (st', .ok pl m)) :
    lookupStore st' uid = none ∧
    ∀ caller' : String, finalize_chunked_upload st' caller' uid =
      (st', .err 404 "Upload session not found") := by
  have hmain : uid ≠ "" ∧ st' = storeErase st uid := by
    unfold finalize_chunked_upload at h
    split at h
    · simp at h
    · next huid =>
      split at h
      · simp at h
      · next s hs =>
        split at h
        · simp at h
        · split at h
          · simp at h
          · injection h with h1 h2
            exact ⟨huid, h1.symm⟩
  obtain ⟨huid, rfl⟩ := hmain
  refine ⟨lookupStore_storeErase st uid, ?_⟩
  intro caller'
  unfold finalize_chunked_upload
  rw [if_neg huid, lookupStore_storeErase st uid]

/-- Witness for C6: a complete one-chunk session; its finalize succeeds with
payload `[7]`, after which the store is empty and re-finalize 404s. -/
theorem finalize_single_use_witness :
    finalize_chunked_upload [("u1", completeSessionC6)] "alice" "u1" =
      (([] : UploadStore), .ok [7] 1) ∧
    (lookupStore ([] : UploadStore) "u1" = none ∧
      ∀ caller' : String, finalize_chunked_upload ([] : UploadStore) caller' "u1" =
        (([] : UploadStore), .err 404 "Upload session not found")) :=
  ⟨by decide,
    finalize_single_use [("u1", completeSessionC6)] [] "alice" "u1" [7] 1 (by decide)⟩

/-! ## Claim C8 — duration parsing is order-independent -/

/-- **C8.** Duration parsing is deterministic and order-independent across the
tokens present: rendering any permutation of the same well-formed
hour/minute/second tokens (nonempty digit strings, at most one token per unit
letter) parses to the same total seconds; in particular
`parse_twitch_duration "1h30m" = parse_twitch_duration "30m1h" = 5400`. -/
theorem parse_duration_order_independent (toks toks' : List (List Char × Char))
    (hwf : ∀ t ∈ toks, t.1 ≠ [] ∧ (∀ c ∈ t.1, c.isDigit = true) ∧ t.2.isDigit = false)
    (hunits : (toks.map Prod.snd).Nodup)
    (hperm : List.Perm toks toks') :
    parse_twitch_duration ⟨renderToks toks⟩ = parse_twitch_duration ⟨renderToks toks'⟩ ∧
    parse_twitch_duration "1h30m" = 5400 ∧ parse_twitch_duration "30m1h" = 5400 := by
  refine ⟨?_, by decide, by decide⟩
  have hwf' : ∀ t ∈ toks', t.1 ≠ [] ∧ (∀ c ∈ t.1, c.isDigit = true) ∧
      t.2.isDigit = false := fun t ht => hwf t (hperm.mem_iff.mpr ht)
  have key : ∀ v : Char, List.find? (fun t => t.2 = v) toks =
      List.find? (fun t => t.2 = v) toks' := by
    intro v
    have h1 := (List.filter_head? (fun t => decide (t.2 = v)) toks).symm
    have h2 := (List.filter_head? (fun t => decide (t.2 = v)) toks').symm
    have hfp : List.Perm (toks.filter (fun t => decide (t.2 = v)))
        (toks'.filter (fun t => decide (t.2 = v))) := hperm.filter _
    have heqf : toks.filter (fun t => decide (t.2 = v)) =
        toks'.filter (fun t => decide (t.2 = v)) :=
      perm_eq_of_length_le_one hfp (filter_unit_length_le_one toks v hunits)
    rw [h1, h2, heqf]
  show ((searchToken 'h' (renderToks toks)).getD 0) * 3600 +
      ((searchToken 'm' (renderToks toks)).getD 0) * 60 +
      ((searchToken 's' (renderToks toks)).getD 0) =
    ((searchToken 'h' (renderToks toks')).getD 0) * 3600 +
      ((searchToken 'm' (renderToks toks')).getD 0) * 60 +
      ((searchToken 's' (renderToks toks')).getD 0)
  rw [searchToken_renderToks 'h' toks hwf, searchToken_renderToks 'm' toks hwf,
    searchToken_renderToks 's' toks hwf, searchToken_renderToks 'h' toks' hwf',
    searchToken_renderToks 'm' toks' hwf', searchToken_renderToks 's' toks' hwf',
    key 'h', key 'm', key 's']

/-- Witness for C8: the spec's own example, `"1h30m"` against `"30m1h"`. -/
theorem parse_duration_order_independent_witness :
    ((∀ t ∈ ([(['1'], 'h'), (['3', '0'], 'm')] : List (List Char × Char)),
        t.1 ≠ [] ∧ (∀ c ∈ t.1, c.isDigit = true) ∧ t.2.isDigit = false) ∧
      ((([(['1'], 'h'), (['3', '0'], 'm')] : List (List Char × Char)).map
        Prod.snd).Nodup) ∧
      List.Perm ([(['1'], 'h'), (['3', '0'], 'm')] : List (List Char × Char))
        [(['3', '0'], 'm'), (['1'], 'h')]) ∧
    (parse_twitch_duration ⟨renderToks [(['1'], 'h'), (['3', '0'], 'm')]⟩ =
        parse_twitch_duration ⟨renderToks [(['3', '0'], 'm'), (['1'], 'h')]⟩ ∧
      parse_twitch_duration "1h30m" = 5400 ∧ parse_twitch_duration "30m1h" = 5400) :=
  ⟨⟨by decide, by decide, by decide⟩,
    parse_duration_order_independent [(['1'], 'h'), (['3', '0'], 'm')]
      [(['3', '0'], 'm'), (['1'], 'h')] (by decide) (by decide) (by decide)⟩

/-! ## Claim C1 — all-empty merge and the task's terminal state -/

/-- Counterexample to C1 as stated: with one clip whose transcription fails
(an all-empty merge), the backend orchestrator never enters `failed`; it
finishes `complete` at progress 100 with the placeholder
"Limited Content Available" summary. -/
theorem all_failed_cex :
    (∀ u ∈ catchupTaskTrace envAllFailOne "https://twitch.tv/somestreamer" 30,
      u.status ≠ "failed") ∧
    ((catchupTaskTrace envAllFailOne "https://twitch.tv/somestreamer" 30).getLast?).map
        (fun u => (u.status, u.progress, u.result.map (fun r => r.summary))) =
      some ("complete", 100, some (Summary.basicLimited "Twitch" 30)) := by
  refine ⟨by decide, by decide⟩

/-- **C1 (amended).** For every run whose extraction yields a non-empty clip
list and whose transcriptions all fail (hence an all-empty merge), the
backend's Task Orchestrator does **not** transition the task to `failed`:
the task reaches `complete` with progress 100 and a placeholder
"Limited Content Available" basic summary in its result. -/
theorem all_failed_reaches_complete (env : OrchestratorEnv) (url : String) (dm : Nat)
    (clips : List Clip) (hc : env.create_parallel_clips = .ok clips) (hne : clips ≠ [])
    (hfail : ∀ k, ∃ e, env.transcribeEnv.outcome k = .failure e) :
    (∀ u ∈ catchupTaskTrace env url dm, u.status ≠ "failed") ∧
    ∃ r : ResultDict, (catchupTaskTrace env url dm).getLast? =
        some ⟨"complete", 100, "Summary generated successfully!", some r⟩ ∧
      r.summary = Summary.basicLimited (detectPlatformName url) dm := by
  have hcond : pyStrip "" = "" ∨ (pyStrip "").length < 100 := Or.inl rfl
  have hsummary : generate_ai_summary "" url dm env.openai =
      .basicLimited (detectPlatformName url) dm := by
    unfold generate_ai_summary
    simp only []
    rw [if_pos hcond]
  unfold catchupTaskTrace process_catchup_async
  rw [hc]
  cases clips with
  | nil => exact absurd rfl hne
  | cons c cs =>
    have hmerge :
        merge_transcripts (transcribe_clips_parallel 5 env.transcribeEnv (c :: cs)) = "" :=
      merge_transcripts_all_empty _
        (transcribe_all_failed_empty env.transcribeEnv (c :: cs) hfail)
    simp only [List.isEmpty_cons, Bool.false_eq_true, if_false, hmerge, hsummary]
    constructor
    · exact @status_not_failed_of_map _
        ["initialized", "extracting_stream", "transcribing", "summarizing", "complete"]
        (by simp) (by decide)
    · exact ⟨⟨Summary.basicLimited (detectPlatformName url) dm, "".take 5000,
        (c :: cs).length, dm⟩, rfl, rfl⟩

/-- Witness for C1 (amended): two failing clips on a Kick stream. -/
theorem all_failed_reaches_complete_witness :
    (envAllFailTwo.create_parallel_clips =
        .ok [⟨some "c0", none, "twitch", 60⟩, ⟨some "c1", none, "twitch", 60⟩] ∧
      ([⟨some "c0", none, "twitch", 60⟩, ⟨some "c1", none, "twitch", 60⟩] :
        List Clip) ≠ [] ∧
      ∀ k, ∃ e, envAllFailTwo.transcribeEnv.outcome k = .failure e) ∧
    ((∀ u ∈ catchupTaskTrace envAllFailTwo "https://kick.com/xyz" 60,
        u.status ≠ "failed") ∧
      ∃ r : ResultDict, (catchupTaskTrace envAllFailTwo "https://kick.com/xyz" 60).getLast?
          = some ⟨"complete", 100, "Summary generated successfully!", some r⟩ ∧
        r.summary = Summary.basicLimited (detectPlatformName "https://kick.com/xyz") 60) :=
  ⟨⟨rfl, by decide, fun _ => ⟨"timeout", rfl⟩⟩,
    all_failed_reaches_complete envAllFailTwo "https://kick.com/xyz" 60
      [⟨some "c0", none, "twitch", 60⟩, ⟨some "c1", none, "twitch", 60⟩] rfl
      (by decide) (fun _ => ⟨"timeout", rfl⟩)⟩

end Catchup
